import Mathlib

/-!
Verification of the two-pass assembler (10-bit word ISA) against its
natural-language specification.  The definitions below are a shallow
embedding of the C sources: linked lists become Lean lists, in-place
mutation becomes explicit state passing, machine integers are `Nat`/`Int`
with explicit truncation where the C code truncates, and fallible
functions return `Option` or pair their result with a `Bool` success flag
exactly where the C functions return `boolean`.
-/

namespace Assembler

/- ### ASCII character classification (ctype.h as used by the sources) -/

/-- C `isspace` on ASCII input: space, tab, newline, vertical tab, form feed,
carriage return (codes 32, 9, 10, 11, 12, 13). -/
def c_isspace (c : Char) : Bool :=
  c.toNat = 32 || c.toNat = 9 || c.toNat = 10 || c.toNat = 11 || c.toNat = 12 || c.toNat = 13

/-- C `isalpha` on ASCII input: A-Z (65..90) or a-z (97..122). -/
def c_isalpha (c : Char) : Bool :=
  (65 ≤ c.toNat && c.toNat ≤ 90) || (97 ≤ c.toNat && c.toNat ≤ 122)

/-- C `isdigit` on ASCII input: 0-9 (48..57). -/
def c_isdigit (c : Char) : Bool :=
  48 ≤ c.toNat && c.toNat ≤ 57

/-- C `isalnum` on ASCII input. -/
def c_isalnum (c : Char) : Bool :=
  c_isalpha c || c_isdigit c

/- ### Configuration constants

`config.h` is part of this repository but is not present under the sources
(only its users are), so the constants it defines are modelled from the
spec. -/

/-- Modelled from the spec: missing config.h; a machine word is a 10-bit
unsigned integer, so the word mask keeps bits 9..0. -/
def WORD_BIT_MASK : Nat := 1023

/-- Modelled from the spec: missing config.h; a machine word is 10 bits wide. -/
def WORD_BIT_SIZE : Nat := 10

/-- Modelled from the spec: missing config.h; bits 9..6 of the main word hold
the opcode, so the opcode field is shifted by 6. -/
def OPCODE_BITS_SHIFT : Nat := 6

/-- Modelled from the spec: missing config.h; the opcode field is 4 bits wide. -/
def OPCODE_BITS : Nat := 4

/-- Modelled from the spec: missing config.h; bits 5..4 of the main word hold
the source addressing mode. -/
def SRC_ADDR_MODE_BITS_SHIFT : Nat := 4

/-- Modelled from the spec: missing config.h; the source addressing mode field
is 2 bits wide. -/
def SRC_ADDR_MODE_BITS : Nat := 2

/-- Modelled from the spec: missing config.h; bits 3..2 of the main word hold
the destination addressing mode. -/
def DEST_ADDR_MODE_BITS_SHIFT : Nat := 2

/-- Modelled from the spec: missing config.h; the destination addressing mode
field is 2 bits wide. -/
def DEST_ADDR_MODE_BITS : Nat := 2

/-- Modelled from the spec: missing config.h; bits 1..0 of every word hold the
ERA (encoding kind). -/
def E_R_A_BITS_SHIFT : Nat := 0

/-- Modelled from the spec: missing config.h; the ERA field is 2 bits wide. -/
def E_R_A_BITS : Nat := 2

/-- Modelled from the spec: missing config.h; the ERA mask keeps bits 1..0. -/
def E_R_A_BITS_MASK : Nat := 3

/-- Modelled from the spec: missing config.h; bits 9..2 of an operand word hold
the operand data, so the data field is shifted by 2. -/
def OPERAND_DATA_BITS_SHIFT : Nat := 2

/-- Modelled from the spec: missing config.h; the operand data field is 8 bits
wide. -/
def OPERAND_DATA_BITS : Nat := 8

/-- Modelled from the spec: missing config.h; the operand data mask keeps bits
9..2 (0x3FC). -/
def OPERAND_DATA_BITS_MASK : Nat := 1020

/-- Modelled from the spec: missing config.h; in a register operand word the
source register occupies bits 9..6. -/
def OPERAND_DATA_SRC_REG_SHIFT : Nat := 6

/-- Modelled from the spec: missing config.h; the source register field is 4
bits wide. -/
def OPERAND_DATA_SRC_REG_BITS : Nat := 4

/-- Modelled from the spec: missing config.h; in a register operand word the
destination register occupies bits 5..2. -/
def OPERAND_DATA_DEST_REG_SHIFT : Nat := 2

/-- Modelled from the spec: missing config.h; the destination register field is
4 bits wide. -/
def OPERAND_DATA_DEST_REG_BITS : Nat := 4

/-- Modelled from the spec: missing config.h; the memory offset (first valid
user address) is 100, as fixed by scenario 3 of the spec. -/
def MEMORY_ADDRESS_OFFSET : Nat := 100

/-- Modelled from the spec: missing config.h; the total number of machine words
available (`MEMORY_CAPACITY` in the spec).  The spec does not pin the numeric
value; 156 is used here and no theorem depends on the exact value. -/
def MEMORY_AVAILABLE_SPACE : Nat := 156

/-- Modelled from the spec: missing config.h; global identifier length limit.
The spec does not pin the numeric value; 30 is used here and no theorem
depends on the exact value. -/
def NAME_MAX_LEN : Nat := 30

/-- Modelled from the spec: missing config.h; the provisional address of an
external label is 0. -/
def EXTERNAL_TEMP_ADDR : Nat := 0

/-- `U_MAX_NUM(bits)`: largest unsigned value of a bit-field. -/
def U_MAX_NUM (bits : Nat) : Nat := 2 ^ bits - 1

/-- `MAX_NUM(bits)`: largest signed (two's complement) value of a bit-field. -/
def MAX_NUM (bits : Nat) : Int := 2 ^ (bits - 1) - 1

/-- `MIN_NUM(bits)`: smallest signed (two's complement) value of a bit-field. -/
def MIN_NUM (bits : Nat) : Int := -(2 ^ (bits - 1))

/-- Truncation of a C `int` expression on assignment to `unsigned short`
(value modulo 2^16, two's complement for negatives). -/
def toUShort (v : Int) : Nat := (v.emod 65536).toNat

/- ### Enumerations (instructions.h, labels.h) -/

/-- ERA encoding kind (`encoding_type` in instructions.h). -/
inductive encoding_type where
  | ABSOLUTE
  | EXTERNAL
  | RELOCATABLE
  | UNKNOWN
deriving DecidableEq, Repr

/-- Numeric value of the `encoding_type` enum. -/
def encoding_type.toNat : encoding_type → Nat
  | .ABSOLUTE => 0
  | .EXTERNAL => 1
  | .RELOCATABLE => 2
  | .UNKNOWN => 3

/-- Addressing mode of an operand (`addr_Mode` in instructions.h). -/
inductive addr_Mode where
  | IMMEDIATE_ACCESS
  | DIRECT_ACCESS
  | MATRIX_ACCESS
  | REGISTER_ACCESS
deriving DecidableEq, Repr

/-- Numeric value of the `addr_Mode` enum. -/
def addr_Mode.toNat : addr_Mode → Nat
  | .IMMEDIATE_ACCESS => 0
  | .DIRECT_ACCESS => 1
  | .MATRIX_ACCESS => 2
  | .REGISTER_ACCESS => 3

/-- Label definition kind (`def_type` in labels.h). -/
inductive def_type where
  | NORMAL
  | EXTERN
deriving DecidableEq, Repr

/-- Label memory segment (`addr_type` in labels.h). -/
inductive addr_type where
  | CODE
  | DATA
  | UNKNOWN_ADDR_TYPE
deriving DecidableEq, Repr

/- ### Operands and opcodes (instructions.h, tables.c) -/

/-- Payload of the `operand_val` union, tagged by the addressing mode that the
C code stores in the companion `type` field.  The matrix payload carries the
label, the two index registers and the register word's ERA
(`Mat_operand` in instructions.h). -/
inductive operand_val where
  | imm (val : Int)
  | lbl (label : String)
  | mat (label : String) (reg_1 : Int) (reg_2 : Int) (reg_encoding : encoding_type)
  | reg (reg : Int)
deriving DecidableEq, Repr

/-- A parsed operand (`operand` in instructions.h): union payload, ERA kind of
its word, and the expanded-file line it was parsed on. -/
structure operand where
  operand_val : operand_val
  encoding : encoding_type
  file_line : Nat
deriving DecidableEq, Repr

/-- The `type` tag of an operand, determined by its union payload. -/
def operand.type (op : operand) : addr_Mode :=
  match op.operand_val with
  | .imm _ => .IMMEDIATE_ACCESS
  | .lbl _ => .DIRECT_ACCESS
  | .mat _ _ _ _ => .MATRIX_ACCESS
  | .reg _ => .REGISTER_ACCESS

/-- Allowed addressing-mode bitmask groups (`addr_mode_group`,
`AM_BIT(m) = 1 << m`). -/
def AM_BIT (m : addr_Mode) : Nat := 1 <<< m.toNat

/-- `AM_1_2`: direct and matrix modes allowed. -/
def AM_1_2 : Nat := AM_BIT .DIRECT_ACCESS ||| AM_BIT .MATRIX_ACCESS

/-- `AM_1_2_3`: direct, matrix and register modes allowed. -/
def AM_1_2_3 : Nat := AM_1_2 ||| AM_BIT .REGISTER_ACCESS

/-- `ALL`: every addressing mode allowed. -/
def AM_ALL : Nat := AM_1_2_3 ||| AM_BIT .IMMEDIATE_ACCESS

/-- `NONE`: no addressing mode allowed. -/
def AM_NONE : Nat := 0

/-- An opcode-table entry (`opcode` struct in instructions.h). -/
structure opcode where
  opcode : Nat
  name : String
  operands_amount : Nat
  source : Nat
  dest : Nat
  encoding : encoding_type
deriving DecidableEq, Repr

/-- The opcode table (tables.c). -/
def opcode_table : List opcode :=
  [ ⟨0, "mov", 2, AM_ALL, AM_1_2_3, .ABSOLUTE⟩,
    ⟨1, "cmp", 2, AM_ALL, AM_ALL, .ABSOLUTE⟩,
    ⟨2, "add", 2, AM_ALL, AM_1_2_3, .ABSOLUTE⟩,
    ⟨3, "sub", 2, AM_ALL, AM_1_2_3, .ABSOLUTE⟩,
    ⟨4, "lea", 2, AM_1_2, AM_1_2_3, .ABSOLUTE⟩,
    ⟨5, "clr", 1, AM_NONE, AM_1_2_3, .ABSOLUTE⟩,
    ⟨6, "not", 1, AM_NONE, AM_1_2_3, .ABSOLUTE⟩,
    ⟨7, "inc", 1, AM_NONE, AM_1_2_3, .ABSOLUTE⟩,
    ⟨8, "dec", 1, AM_NONE, AM_1_2_3, .ABSOLUTE⟩,
    ⟨9, "jmp", 1, AM_NONE, AM_1_2_3, .ABSOLUTE⟩,
    ⟨10, "bne", 1, AM_NONE, AM_1_2_3, .ABSOLUTE⟩,
    ⟨11, "jsr", 1, AM_NONE, AM_1_2_3, .ABSOLUTE⟩,
    ⟨12, "red", 1, AM_NONE, AM_1_2_3, .ABSOLUTE⟩,
    ⟨13, "prn", 1, AM_NONE, AM_ALL, .ABSOLUTE⟩,
    ⟨14, "rts", 0, AM_NONE, AM_NONE, .ABSOLUTE⟩,
    ⟨15, "stop", 0, AM_NONE, AM_NONE, .ABSOLUTE⟩ ]

/- ### Instruction and data memory (instruction_memory.c, data_memory.c) -/

/-- The memory-facing slice of the assembler context: both images (kept in
insertion order as (address, value) cells), both counters, and the shared
usage counter. -/
structure AsmMemory where
  instruction_memory : List (Nat × Nat)
  data_memory : List (Nat × Int)
  IC : Nat
  DC : Nat
  memory_usage : Nat
deriving DecidableEq, Repr

/-- `add_instruction_to_memory` (instruction_memory.c): refuses when
`memory_usage == MEMORY_AVAILABLE_SPACE`; otherwise appends a cell holding
the encoded value at address `IC` to the end of the code image and increments
`IC` and `memory_usage`. -/
def add_instruction_to_memory (encoded_val : Nat) (st : AsmMemory) : Bool × AsmMemory :=
  if st.memory_usage = MEMORY_AVAILABLE_SPACE then
    (false, st)
  else
    (true, { st with
      instruction_memory := st.instruction_memory ++ [(st.IC, encoded_val)],
      IC := st.IC + 1,
      memory_usage := st.memory_usage + 1 })

/-- `add_data_to_memory` (data_memory.c): refuses when
`memory_usage >= MEMORY_AVAILABLE_SPACE`; otherwise appends a cell holding
the value at address `DC` to the end of the data image and increments `DC`
and `memory_usage`. -/
def add_data_to_memory (val : Int) (st : AsmMemory) : Bool × AsmMemory :=
  if MEMORY_AVAILABLE_SPACE ≤ st.memory_usage then
    (false, st)
  else
    (true, { st with
      data_memory := st.data_memory ++ [(st.DC, val)],
      DC := st.DC + 1,
      memory_usage := st.memory_usage + 1 })

/- ### Encoder (encoder.c) -/

/-- A fix-up request (`address_update_request` in the context): the code
address whose word must be patched in the second pass, and the operand whose
label drives the patch. -/
structure address_update_request where
  address : Nat
  operand : operand
deriving DecidableEq, Repr

/-- Operand slot, the encoder's local `operand_type` enum. -/
inductive operand_slot where
  | DESTINATION
  | SOURCE
deriving DecidableEq, Repr

/-- The operand-encoding loop of `instruction_encoder` (encoder.c).  One
iteration per operand: the C `while (i < operands_amount)` loop is driven here
by `remaining = operands_amount - i`, the number of iterations left.  The
16-bit scratch words `machine_word` and
`mat_regs_machine_word` persist across iterations exactly as the C locals do,
and every finished word is masked to 10 bits when inserted into the buffer.
Two-register packing merges the freshly inserted destination word into the
previous (source) word and rolls the local instruction counter back by one. -/
def encode_operands_loop (operands_amount : Nat) (src_operand dest_operand : Option operand)
    (remaining i : Nat) (machine_word mat_regs_machine_word : Nat) (buff : List Nat) (ic : Nat)
    (reqs : List address_update_request) :
    Option (List Nat × Nat × List address_update_request) :=
  match remaining with
  | 0 => some (buff, ic, reqs)
  | remaining' + 1 =>
    let sel : Option operand × operand_slot :=
      if i = 1 ∨ operands_amount = 1 then (dest_operand, .DESTINATION)
      else (src_operand, .SOURCE)
    match sel.1 with
    | none => none
    | some op =>
      -- reset the word's data bits field (bits 9..2) of the 16-bit scratch word
      let mw1 := machine_word &&& (65535 - OPERAND_DATA_BITS_MASK)
      let step : Option (Nat × Nat × List address_update_request) :=
        match op.operand_val with
        | .imm v =>
          if v > MAX_NUM OPERAND_DATA_BITS ∨ v < MIN_NUM OPERAND_DATA_BITS then none
          else some (mw1 ||| toUShort (v * 2 ^ OPERAND_DATA_BITS_SHIFT), mat_regs_machine_word, reqs)
        | .reg r =>
          match sel.2 with
          | .DESTINATION =>
            if r > MAX_NUM OPERAND_DATA_DEST_REG_BITS ∨ r < MIN_NUM OPERAND_DATA_DEST_REG_BITS then none
            else some (mw1 ||| toUShort (r * 2 ^ OPERAND_DATA_DEST_REG_SHIFT), mat_regs_machine_word, reqs)
          | .SOURCE =>
            if r > MAX_NUM OPERAND_DATA_SRC_REG_BITS ∨ r < MIN_NUM OPERAND_DATA_SRC_REG_BITS then none
            else some (mw1 ||| toUShort (r * 2 ^ OPERAND_DATA_SRC_REG_SHIFT), mat_regs_machine_word, reqs)
        | .lbl _ =>
          -- data bits stay zero; record the fix-up request at the word's address
          some (mw1, mat_regs_machine_word, reqs ++ [⟨ic, op⟩])
        | .mat _ r1 r2 _ =>
          -- label word: data bits stay zero, fix-up recorded; register word built aside
          let matw1 := mat_regs_machine_word &&& (65535 - OPERAND_DATA_BITS_MASK)
          if r1 > MAX_NUM OPERAND_DATA_SRC_REG_BITS ∨ r1 < MIN_NUM OPERAND_DATA_SRC_REG_BITS ∨
             r2 > MAX_NUM OPERAND_DATA_DEST_REG_BITS ∨ r2 < MIN_NUM OPERAND_DATA_DEST_REG_BITS then none
          else
            some (mw1,
              (matw1 ||| toUShort (r1 * 2 ^ OPERAND_DATA_SRC_REG_SHIFT)) |||
                toUShort (r2 * 2 ^ OPERAND_DATA_DEST_REG_SHIFT),
              reqs ++ [⟨ic, op⟩])
      match step with
      | none => none
      | some (mw2, matw2, reqs1) =>
        -- operand ERA bits
        if U_MAX_NUM E_R_A_BITS < op.encoding.toNat then none
        else
          let mw4 := (mw2 &&& (65535 - E_R_A_BITS_MASK)) ||| (op.encoding.toNat <<< E_R_A_BITS_SHIFT)
          let buff1 := buff ++ [mw4 &&& WORD_BIT_MASK]
          let ic1 := ic + 1
          -- two-register packing: merge the two register words into one
          let packed : Bool :=
            i == 1 && operands_amount == 2 &&
              (match src_operand, dest_operand with
               | some s, some d => s.type == .REGISTER_ACCESS && d.type == .REGISTER_ACCESS
               | _, _ => false)
          let buff2 := if packed then
              buff.dropLast ++ [(buff.getLast?.getD 0) ||| (mw4 &&& WORD_BIT_MASK)]
            else buff1
          let ic2 := if packed then ic1 - 1 else ic1
          -- matrix operands also emit the register-pair word, with its own ERA
          match op.operand_val with
          | .mat _ _ _ reg_encoding =>
            let matw4 := (matw2 &&& (65535 - E_R_A_BITS_MASK)) |||
              (reg_encoding.toNat <<< E_R_A_BITS_SHIFT)
            encode_operands_loop operands_amount src_operand dest_operand remaining' (i + 1)
              mw4 matw4 (buff2 ++ [matw4 &&& WORD_BIT_MASK]) (ic2 + 1) reqs1
          | _ =>
            encode_operands_loop operands_amount src_operand dest_operand remaining' (i + 1)
              mw4 matw2 buff2 ic2 reqs1

/-- `instruction_encoder` (encoder.c): builds the main word from the opcode,
the per-operand addressing modes and the opcode's ERA, then runs the operand
loop.  Returns the encoded 10-bit words in emission order together with the
fix-up requests generated for label operands, or `none` on any bit-field
violation. -/
def instruction_encoder (opc : opcode) (src_operand dest_operand : Option operand)
    (IC : Nat) : Option (List Nat × List address_update_request) :=
  if U_MAX_NUM OPCODE_BITS < opc.opcode then none
  else
    let w1 : Nat := opc.opcode <<< OPCODE_BITS_SHIFT
    let srcOk : Bool := match src_operand with
      | some s => decide (s.type.toNat ≤ U_MAX_NUM SRC_ADDR_MODE_BITS)
      | none => true
    let destOk : Bool := match dest_operand with
      | some d => decide (d.type.toNat ≤ U_MAX_NUM DEST_ADDR_MODE_BITS)
      | none => true
    if ¬srcOk then none
    else if ¬destOk then none
    else
      let w2 := match src_operand with
        | some s => w1 ||| (s.type.toNat <<< SRC_ADDR_MODE_BITS_SHIFT)
        | none => w1
      let w3 := match dest_operand with
        | some d => w2 ||| (d.type.toNat <<< DEST_ADDR_MODE_BITS_SHIFT)
        | none => w2
      if U_MAX_NUM E_R_A_BITS < opc.encoding.toNat then none
      else
        let w4 := w3 ||| (opc.encoding.toNat <<< E_R_A_BITS_SHIFT)
        match encode_operands_loop opc.operands_amount src_operand dest_operand
            opc.operands_amount 0 0 0 [w4 &&& WORD_BIT_MASK] (IC + 1) [] with
        | none => none
        | some (buff, _, reqs) => some (buff, reqs)

/-- `encode_label_address` (encoder.c): packs a resolved label address into the
data field (bits 9..2) of an operand word and the ERA kind into bits 1..0. -/
def encode_label_address (new_label_addr : Nat) (encoding : encoding_type) : Option Nat :=
  if U_MAX_NUM OPERAND_DATA_BITS < new_label_addr then none
  else if U_MAX_NUM E_R_A_BITS < encoding.toNat then none
  else
    let w1 : Nat := new_label_addr <<< OPERAND_DATA_BITS_SHIFT
    some ((w1 &&& (65535 - E_R_A_BITS_MASK)) ||| (encoding.toNat <<< E_R_A_BITS_SHIFT))

/-- The word-insertion loop of `handle_instruction_line` (instructions.c):
append each encoded word to the code image, stopping at the first failure.
On failure with a full memory, the usage counter is pushed past the limit so
the overflow diagnostic is reported only once. -/
def insert_instruction_words (words : List Nat) (st : AsmMemory) : Bool × AsmMemory :=
  match words with
  | [] => (true, st)
  | w :: rest =>
    match add_instruction_to_memory w st with
    | (true, st1) => insert_instruction_words rest st1
    | (false, st1) =>
      (false, if st1.memory_usage = MEMORY_AVAILABLE_SPACE then
          { st1 with memory_usage := st1.memory_usage + 1 }
        else st1)

/-- The encode-then-store step of `handle_instruction_line` (instructions.c):
encode the line and, when memory is not already exhausted, append the encoded
words to the code image. -/
def encode_and_store (opc : opcode) (src_operand dest_operand : Option operand)
    (st : AsmMemory) : Bool × AsmMemory :=
  match instruction_encoder opc src_operand dest_operand st.IC with
  | none => (false, st)
  | some (words, _) =>
    if st.memory_usage ≤ MEMORY_AVAILABLE_SPACE then insert_instruction_words words st
    else (true, st)

/- ### Labels (labels.h, labels.c) -/

/-- A symbol-table entry (`label` struct in labels.h). -/
structure label where
  name : String
  address : Nat
  type : addr_type
  definition : def_type
  is_entry : Bool
deriving DecidableEq, Repr

/-- `get_label` (labels.c): first entry with the given name. -/
def get_label (name : String) : List label → Option label
  | [] => none
  | l :: rest => if l.name = name then some l else get_label name rest

/-- `is_label_defined` (labels.c). -/
def is_label_defined (name : String) (labels_list : List label) : Bool :=
  (get_label name labels_list).isSome

/-- `get_label_address` (labels.c): the address of the named label, 0 when it
is absent. -/
def get_label_address (name : String) (labels_list : List label) : Nat :=
  match get_label name labels_list with
  | some l => l.address
  | none => 0

/- ### Relocation (addresses.c) -/

/-- `update_instruction_addresses` (addresses.c): add the memory offset to
every code-image address. -/
def update_instruction_addresses : List (Nat × Nat) → List (Nat × Nat)
  | [] => []
  | cell :: rest => (cell.1 + MEMORY_ADDRESS_OFFSET, cell.2) :: update_instruction_addresses rest

/-- `update_data_addresses` (addresses.c): add the final IC plus the memory
offset to every data-image address, placing data after code. -/
def update_data_addresses (IC : Nat) : List (Nat × Int) → List (Nat × Int)
  | [] => []
  | cell :: rest => (cell.1 + (IC + MEMORY_ADDRESS_OFFSET), cell.2) :: update_data_addresses IC rest

/-- `update_labels_addresses` (addresses.c): DATA labels gain the final IC plus
the memory offset, CODE labels gain the memory offset, any other label is left
unchanged. -/
def update_labels_addresses (IC : Nat) : List label → List label
  | [] => []
  | l :: rest =>
    let l1 :=
      if l.type = .DATA then { l with address := l.address + (IC + MEMORY_ADDRESS_OFFSET) }
      else if l.type = .CODE then { l with address := l.address + MEMORY_ADDRESS_OFFSET }
      else l
    l1 :: update_labels_addresses IC rest

/-- `update_request_list_addresses` (addresses.c): add the memory offset to the
code address stored in every fix-up request. -/
def update_request_list_addresses : List address_update_request → List address_update_request
  | [] => []
  | r :: rest => { r with address := r.address + MEMORY_ADDRESS_OFFSET } :: update_request_list_addresses rest

/-- The relocation portion of `execute_second_pass` (second_pass.c): relocate
the code image, then the data image, then the label addresses. -/
structure SecondPassImage where
  instruction_memory : List (Nat × Nat)
  data_memory : List (Nat × Int)
  labels : List label
  IC : Nat
deriving DecidableEq, Repr

/-- The three relocation steps of the second pass in their call order
(second_pass.c lines calling `update_instruction_addresses`,
`update_data_addresses`, `update_labels_addresses`). -/
def second_pass_relocate (st : SecondPassImage) : SecondPassImage :=
  { st with
    instruction_memory := update_instruction_addresses st.instruction_memory,
    data_memory := update_data_addresses st.IC st.data_memory,
    labels := update_labels_addresses st.IC st.labels }

/- ### Fix-up processing (addresses.c, externals.c) -/

/-- `add_external_usage` (externals.c): append a usage record (label name,
memory address) at the end of the externals list. -/
def add_external_usage (label_name : String) (mem_addr : Nat)
    (externals_list : List (String × Nat)) : List (String × Nat) :=
  externals_list ++ [(label_name, mem_addr)]

/-- The label name a fix-up request refers to, read from the matching union
field (`process_addr_update_requests` switch in addresses.c); `none` for an
operand type that cannot carry a label (internal error in the C code). -/
def request_label_name (op : operand) : Option String :=
  match op.operand_val with
  | .mat l _ _ _ => some l
  | .lbl l => some l
  | _ => none

/-- The search for the instruction-memory node with a given address, as a
membership test (`while (instruction_node && instruction_node->address != ...)`). -/
def inst_addr_found : List (Nat × Nat) → Nat → Bool
  | [], _ => false
  | cell :: rest, addr => if cell.1 = addr then true else inst_addr_found rest addr

/-- Overwrite the value of the first instruction-memory cell carrying the
given address (`instruction_node->value = ...`). -/
def set_inst_value : List (Nat × Nat) → Nat → Nat → List (Nat × Nat)
  | [], _, _ => []
  | cell :: rest, addr, v =>
    if cell.1 = addr then (cell.1, v) :: rest else cell :: set_inst_value rest addr v

/-- The word stored at an address of the code image (first matching cell). -/
def find_inst_value : List (Nat × Nat) → Nat → Option Nat
  | [], _ => none
  | cell :: rest, addr => if cell.1 = addr then some cell.2 else find_inst_value rest addr

/-- The mutable state read and written by `process_addr_update_requests`:
the code image, the externals-use list, and the error bookkeeping fields of
the context. -/
structure SecondPassState where
  instruction_memory : List (Nat × Nat)
  external_labels : List (String × Nat)
  err_code : Option Nat
  second_pass_error_line : Nat
deriving DecidableEq, Repr

/-- The request-processing loop of `process_addr_update_requests`
(addresses.c): for each request find the code word, resolve the label, set the
operand ERA (`EXTERNAL` for an external label — also recording an externals
use at the request's relocated address — `RELOCATABLE` otherwise), encode the
resolved address and overwrite the word.  Stops with `false` at the first
failure, leaving the state as mutated so far. -/
def process_requests_loop (labels : List label) :
    List address_update_request → SecondPassState → Bool × SecondPassState
  | [], st => (true, st)
  | req :: rest, st =>
    match request_label_name req.operand with
    | none => (false, { st with err_code := some 28 })
    | some label_name =>
      if inst_addr_found st.instruction_memory req.address then
        if is_label_defined label_name labels then
          match get_label label_name labels with
          | none => (false, { st with err_code := some 28 })
          | some lab =>
            let encoding : encoding_type :=
              if lab.definition = .EXTERN then .EXTERNAL else .RELOCATABLE
            let st1 :=
              if lab.definition = .EXTERN then
                { st with external_labels :=
                    add_external_usage label_name req.address st.external_labels }
              else st
            match encode_label_address (get_label_address label_name labels) encoding with
            | none => (false, st1)
            | some w =>
              process_requests_loop labels rest
                { st1 with instruction_memory := set_inst_value st1.instruction_memory req.address w }
        else
          (false, { st with err_code := some 146,
                            second_pass_error_line := req.operand.file_line })
      else (false, { st with err_code := some 29 })

/-- `process_addr_update_requests` (addresses.c): first relocate the request
addresses by the memory offset, then run the processing loop. -/
def process_addr_update_requests (labels : List label)
    (reqs : List address_update_request) (st : SecondPassState) : Bool × SecondPassState :=
  process_requests_loop labels (update_request_list_addresses reqs) st

/-- The externals-use records the claim expects for a request list at the
addresses the requests already carry: one record per fix-up whose label
resolves to an external label, in list order (specification-side definition,
stating the claim's expected output). -/
def spec_external_records_at (labels : List label) (reqs : List address_update_request) :
    List (String × Nat) :=
  reqs.filterMap (fun r =>
    match request_label_name r.operand with
    | some nm =>
      match get_label nm labels with
      | some lab => if lab.definition = def_type.EXTERN then some (nm, r.address) else none
      | none => none
    | none => none)

/-- The externals-use records the claim expects for a raw (first-pass) request
list: one record per fix-up whose label resolves to an external label, in list
order, carrying the relocated code address (specification-side definition,
stating the claim's expected output). -/
def spec_external_records (labels : List label) (reqs : List address_update_request) :
    List (String × Nat) :=
  reqs.filterMap (fun r =>
    match request_label_name r.operand with
    | some nm =>
      match get_label nm labels with
      | some lab =>
        if lab.definition = def_type.EXTERN then some (nm, r.address + MEMORY_ADDRESS_OFFSET)
        else none
      | none => none
    | none => none)

/- ### Directive parsing (directives.c) -/

/-- `while (isspace(*p)) p++` on a character list. -/
def skip_spaces : List Char → List Char
  | [] => []
  | c :: rest => if c_isspace c then skip_spaces rest else c :: rest

/-- The quoted-body loop of `extract_directive_string` (directives.c): collect
characters until the closing quote; each inner character must be alphanumeric
or whitespace; reaching the end of the line without a closing quote is an
error.  Returns the body and the remainder after the closing quote. -/
def string_body_loop : List Char → List Char → Option (List Char × List Char)
  | [], _ => none
  | c :: rest, buff =>
    if c = '"' then some (buff, rest)
    else if c_isalnum c || c_isspace c then string_body_loop rest (buff ++ [c])
    else none

/-- The trailing-junk check of `extract_directive_string`: after the closing
quote only whitespace may remain. -/
def only_spaces_to_eol : List Char → Bool
  | [] => true
  | c :: rest => c_isspace c && only_spaces_to_eol rest

/-- `extract_directive_string` (directives.c): skip leading whitespace, demand
an opening quote, collect the alphanumeric-or-whitespace body up to the
closing quote, and demand only whitespace afterwards. -/
def extract_directive_string (line : List Char) : Option (List Char) :=
  match skip_spaces line with
  | [] => none
  | c :: rest =>
    if c ≠ '"' then none
    else
      match string_body_loop rest [] with
      | none => none
      | some (body, rest2) => if only_spaces_to_eol rest2 then some body else none

/-- `parse_string_directive` (directives.c): extract the quoted string and
convert it to the list of its character codes followed by the terminating `0`
(the C loop copies `strlen+1` characters, including the NUL). -/
def parse_string_directive (line : List Char) : Option (List Int) :=
  match extract_directive_string (skip_spaces line) with
  | none => none
  | some body => some (body.map (fun c => (c.toNat : Int)) ++ [0])

/-- The value-insertion loop of `handle_data_directives_line` (directives.c):
range-check each value against the signed 10-bit word domain and append it to
the data image, stopping at the first failure. -/
def insert_data_values : List Int → AsmMemory → Bool × AsmMemory
  | [], st => (true, st)
  | v :: rest, st =>
    if v > MAX_NUM WORD_BIT_SIZE ∨ v < MIN_NUM WORD_BIT_SIZE then (false, st)
    else
      match add_data_to_memory v st with
      | (true, st1) => insert_data_values rest st1
      | (false, st1) => (false, st1)

/-- The `.string` path of `handle_data_directives_line` (directives.c): parse
the directive payload and, when memory is not already exhausted, insert the
produced values into the data image. -/
def handle_string_directive_line (line : List Char) (st : AsmMemory) : Bool × AsmMemory :=
  match parse_string_directive line with
  | none => (false, st)
  | some values =>
    if st.memory_usage ≤ MEMORY_AVAILABLE_SPACE then insert_data_values values st
    else (true, st)

/-- Outcome of `parse_mat_directive` (directives.c) after the `[rows][cols]`
header has been read into `row` and `col`. -/
inductive mat_parse_outcome where
  /-- The `row == 0 || col == 0` check fired (matrix-size error). -/
  | rejected_dims
  /-- More values than matrix cells (`count > mat_size`, surplus error). -/
  | rejected_surplus
  /-- The produced payload: the declared values, zero-padded to the matrix
  size; its length is the reported count. -/
  | padded (vals : List Int)
  /-- The padding branch was reached with a negative `mat_size`: the source
  calls `handle_realloc(result, mat_size * sizeof(int))`, whose size argument
  wraps around on conversion to the unsigned allocation size; the recorded
  value is that wrapped byte count.  What happens then depends on the
  allocator, not on the source. -/
  | realloc_overflow (size : Nat)
deriving DecidableEq, Repr

/-- `parse_mat_directive` (directives.c) after the `[rows][cols]` header is
parsed (`sscanf` with `%d` accepts signed values) and the payload values are
extracted: reject a zero dimension, then compare the value count against the
matrix size.  The comparisons mirror the C operand conversions: `count` is an
`unsigned int` and `mat_size` an `int`, so `mat_size` is converted to
unsigned (modulo 2^32) before comparing. -/
def parse_mat_directive (row col : Int) (values : List Int) : mat_parse_outcome :=
  if row = 0 ∨ col = 0 then .rejected_dims
  else
    let mat_size : Int := row * col
    let mat_size_u : Int := mat_size.emod 4294967296
    let count : Int := (values.length : Int)
    if mat_size_u < count then .rejected_surplus
    else if count < mat_size_u then
      if 0 ≤ mat_size then .padded (values ++ List.replicate (mat_size.toNat - values.length) 0)
      else .realloc_overflow ((mat_size * 4).emod 18446744073709551616).toNat
    else .padded values

/- ### Reserved names (util.c, tables.c) -/

/-- The register-name table (tables.c). -/
def registers : List String := ["r0", "r1", "r2", "r3", "r4", "r5", "r6", "r7"]

/-- The data-directive table (tables.c). -/
def data_directives_table : List String := [".data", ".string", ".mat"]

/-- The attribute-directive table (tables.c). -/
def attributes_directives_table : List String := [".entry", ".extern"]

/-- The macro-keyword table (tables.c). -/
def macro_declaration : List String := ["mcro", "mcroend"]

/-- `is_directive` (directives.c): the dotted name appears in either directive
table. -/
def is_directive (name : String) : Bool :=
  data_directives_table.contains name || attributes_directives_table.contains name

/-- `is_opcode` (instructions.c): the name appears in the opcode table. -/
def is_opcode (name : String) : Bool :=
  opcode_table.any (fun o => o.name = name)

/-- `is_register` (instructions.c): the name is one of r0..r7. -/
def is_register (name : String) : Bool :=
  registers.contains name

/-- `is_PP_saved_name` (pre_processor.c): the name is a macro keyword. -/
def is_PP_saved_name (name : String) : Bool :=
  macro_declaration.contains name

/-- `is_name_valid` (util.c): length within the identifier limit, first
character alphabetic, remaining characters alphanumeric or underscore. -/
def is_name_valid (str : String) : Bool :=
  let cs := str.toList
  if NAME_MAX_LEN < cs.length then false
  else
    match cs with
    | [] => false
    | c :: rest => c_isalpha c && rest.all (fun c2 => c_isalnum c2 || c2 = '_')

/-- `is_sys_saved_name` (util.c): directives (checked with a dot prepended),
opcodes, registers, and macro keywords are reserved. -/
def is_sys_saved_name (name : String) : Bool :=
  is_directive ("." ++ name) || is_opcode name || is_register name || is_PP_saved_name name

/- ### Macro table and preprocessor (pre_processor.c) -/

/-- A macro-table entry (`macro` struct): name, captured content lines, the
recorded line count, and the source line of the `mcro` header. -/
structure macro_def where
  name : String
  content : List String
  lines : Nat
  define_line : Nat
deriving DecidableEq, Repr

/-- `is_macro_defined` (pre_processor.c). -/
def is_macro_defined (name : String) (macro_list : List macro_def) : Bool :=
  macro_list.any (fun m => m.name = name)

/-- `is_used_name` (util.c): already a label or a macro. -/
def is_used_name (name : String) (labels_list : List label) (macro_list : List macro_def) : Bool :=
  is_label_defined name labels_list || is_macro_defined name macro_list

/-- `can_add_name` (util.c). -/
def can_add_name (name : String) (labels_list : List label) (macro_list : List macro_def) : Bool :=
  ¬(is_sys_saved_name name || is_used_name name labels_list macro_list)

/-- `get_macro` (pre_processor.c): first macro-table entry with the name. -/
def get_macro_node (name : String) : List macro_def → Option macro_def
  | [] => none
  | m :: rest => if m.name = name then some m else get_macro_node name rest

/-- `add_macro` (pre_processor.c): append the new entry at the end of the
macro list. -/
def add_macro_node (name : String) (content : List String) (lines_amount : Nat)
    (define_line : Nat) (macro_list : List macro_def) : List macro_def :=
  macro_list ++ [⟨name, content, lines_amount, define_line⟩]

/-- `strtok` delimiters used by the preprocessor: space, tab, newline. -/
def strtok_delim (c : Char) : Bool := c = ' ' || c = '\t' || c = '\n'

/-- Splitting a line into `strtok` tokens. -/
def tokens_aux : List Char → List Char → List String
  | [], cur => if cur.isEmpty then [] else [String.mk cur.reverse]
  | c :: rest, cur =>
    if strtok_delim c then
      if cur.isEmpty then tokens_aux rest []
      else String.mk cur.reverse :: tokens_aux rest []
    else tokens_aux rest (c :: cur)

/-- The tokens of a source line. -/
def line_tokens (line : String) : List String := tokens_aux line.toList []

/-- `is_start_of_macro` (pre_processor.c): returns the declared macro name
when the line is `mcro <name>`, plus the error codes printed and whether the
preprocessor error flag was set.  A stray `mcroend` (177), a missing name
(176) and junk after the name (149) all set the flag. -/
def is_start_of_macro (line : String) : Option String × List Nat × Bool :=
  match line_tokens line with
  | [] => (none, [], false)
  | t :: rest =>
    if t ≠ "mcro" then
      if t = "mcroend" then (none, [177], true) else (none, [], false)
    else
      match rest with
      | [] => (none, [176], true)
      | [n] => (some n, [], false)
      | _ :: _ :: _ => (none, [149], true)

/-- `is_end_of_macro` (pre_processor.c): the first token is `mcroend`; junk
after it prints error 150 and sets the flag but the line still terminates the
macro. -/
def is_end_of_macro (line : String) : Bool × List Nat × Bool :=
  match line_tokens line with
  | [] => (false, [], false)
  | t :: rest =>
    if t = "mcroend" then
      if rest.isEmpty then (true, [], false) else (true, [150], true)
    else (false, [], false)

/-- Result of `read_macro_content` (pre_processor.c): the captured body lines
with the recorded line count (`none` on failure), the unread remainder of the
file, the updated `as_file_line` counter, the error codes printed, and
whether the preprocessor error flag was set. -/
structure read_macro_result where
  res : Option (List String × Nat)
  rest : List String
  as_file_line : Nat
  errs : List Nat
  err_flag : Bool
deriving DecidableEq, Repr

/-- `read_macro_content` (pre_processor.c): read lines, counting every line
read (the `mcroend` line included), until `mcroend`; body lines are captured
verbatim.  An empty body (151) and a missing `mcroend` at end of file (152)
fail and set the flag. -/
def read_macro_content (ls : List String) (as_file_line : Nat) (content : List String)
    (lines_count : Nat) : read_macro_result :=
  match ls with
  | [] => ⟨none, [], as_file_line, [152], true⟩
  | l :: rest =>
    let afl := as_file_line + 1
    let cnt := lines_count + 1
    match is_end_of_macro l with
    | (true, errs1, flag1) =>
      if content.isEmpty then ⟨none, rest, afl, errs1 ++ [151], true⟩
      else ⟨some (content, cnt), rest, afl, errs1, flag1⟩
    | (false, _, _) => read_macro_content rest afl (content ++ [l]) cnt

/-- `is_macro_call` (pre_processor.c): the line's first token is a defined
macro name and nothing follows it; junk after the call prints 153, sets the
flag, and the line is not treated as a call. -/
def is_macro_call (line : String) (macro_list : List macro_def) :
    Option macro_def × List Nat × Bool :=
  match line_tokens line with
  | [] => (none, [], false)
  | t :: rest =>
    match get_macro_node t macro_list with
    | none => (none, [], false)
    | some m =>
      if rest.isEmpty then (some m, [], false) else (none, [153], true)

/-- The per-invocation line-map additions of `execute_preprocessor`
(pre_processor.c): the `i = 1; while (i < macro->lines)` loop maps body line
`define_line + 1 + k` to expanded line `new_line_num + k` for
`k = 0 .. count-1` where `count = lines - 1`. -/
def map_macro_lines (define_line new_line_num count : Nat) : List (Nat × Nat) :=
  (List.range count).map (fun k => (define_line + 1 + k, new_line_num + k))

/-- The preprocessor's per-source state: the expanded-file content collected
so far, the macro table, the line map, the error codes printed, the
`preproc_error` flag, and the three line counters. -/
structure PPState where
  am_content : List String
  macros : List macro_def
  lines_map : List (Nat × Nat)
  errs : List Nat
  preproc_error : Bool
  as_file_line : Nat
  origin_line_num : Nat
  new_line_num : Nat
deriving DecidableEq, Repr

/-- Upper bound on the remaining input after `read_macro_content`. -/
theorem read_macro_content_rest_length (ls : List String) (a : Nat) (c : List String) (n : Nat) :
    (read_macro_content ls a c n).rest.length ≤ ls.length := by
  induction ls generalizing a c n with
  | nil => simp [read_macro_content]
  | cons l rest ih =>
    simp only [read_macro_content]
    rcases h : is_end_of_macro l with ⟨isEnd, errs1, flag1⟩
    cases isEnd
    · exact Nat.le_trans (ih _ _ _) (Nat.le_succ _)
    · by_cases hc : c.isEmpty <;> simp [hc, Nat.le_succ]

/-- The reading loop of `execute_preprocessor` (pre_processor.c).  Each line
either opens a macro definition (name validity and reservation violations
print 148/147 but do not set the error flag; the body is then captured and
the macro recorded, with the definition line recovered as
`as_file_line - lines_count`), is a macro invocation (the body is appended to
the expanded content and the body lines are mapped), or is copied through
(with its own line-map entry).  A failed body capture aborts the loop with
`false`, as the `goto cleanUp` path does.  The `fuel` argument only drives the
structural recursion: every step consumes at least one input line, so running
with `fuel = ls.length` never exhausts it (the fuel-out branch is unreachable). -/
def pp_loop : Nat → List String → PPState → Bool × PPState
  | _, [], st => (true, st)
  | 0, _ :: _, st => (false, st)
  | fuel + 1, l :: rest, st =>
    let st1 := { st with as_file_line := st.as_file_line + 1,
                         new_line_num := st.new_line_num + 1,
                         origin_line_num := st.origin_line_num + 1 }
    match is_start_of_macro l with
    | (some macro_name, errs0, flag0) =>
      let st2 := { st1 with errs := st1.errs ++ errs0,
                            preproc_error := st1.preproc_error || flag0 }
      let st3 := if is_name_valid macro_name then st2
        else { st2 with errs := st2.errs ++ [148] }
      let st4 := if can_add_name macro_name [] st3.macros then st3
        else { st3 with errs := st3.errs ++ [147] }
      match read_macro_content rest st4.as_file_line [] 0 with
      | ⟨none, _, afl, rerrs, rflag⟩ =>
        (false, { st4 with as_file_line := afl, errs := st4.errs ++ rerrs,
                           preproc_error := true })
      | ⟨some (content, lines_count), rrest, afl, rerrs, rflag⟩ =>
        let st5 := { st4 with as_file_line := afl, errs := st4.errs ++ rerrs,
                              preproc_error := st4.preproc_error || rflag }
        let st6 := { st5 with
          macros := add_macro_node macro_name content lines_count
            (st5.as_file_line - lines_count) st5.macros,
          origin_line_num := st5.origin_line_num + lines_count,
          new_line_num := st5.new_line_num - 1 }
        pp_loop fuel rrest st6
    | (none, errs0, flag0) =>
      let st2 := { st1 with errs := st1.errs ++ errs0,
                            preproc_error := st1.preproc_error || flag0 }
      match is_macro_call l st2.macros with
      | (some m, _, _) =>
        let st3 := { st2 with
          am_content := st2.am_content ++ m.content,
          lines_map := st2.lines_map ++ map_macro_lines m.define_line st2.new_line_num (m.lines - 1),
          new_line_num := st2.new_line_num + (m.lines - 1) - 1 }
        pp_loop fuel rest st3
      | (none, errs1, flag1) =>
        let st3 := { st2 with errs := st2.errs ++ errs1,
                              preproc_error := st2.preproc_error || flag1 }
        let st4 := { st3 with
          am_content := st3.am_content ++ [l],
          lines_map := st3.lines_map ++ [(st3.origin_line_num, st3.new_line_num)] }
        pp_loop fuel rest st4

/-- `execute_preprocessor` (pre_processor.c): run the reading loop on the
source lines from a fresh state; the expanded file is created only when the
loop finished and the error flag is clear. -/
def execute_preprocessor (ls : List String) : Option (List String) × PPState :=
  let st0 : PPState := ⟨[], [], [], [], false, 0, 0, 0⟩
  match pp_loop ls.length ls st0 with
  | (false, st) => (none, st)
  | (true, st) =>
    if st.preproc_error then (none, st) else (some st.am_content, st)

/- ### Helper lemmas -/

/-- Every ERA kind fits the 2-bit ERA field. -/
theorem encoding_type_toNat_le (e : encoding_type) : e.toNat ≤ 3 := by
  cases e <;> simp [encoding_type.toNat]

/- ### Claim theorems -/

set_option maxHeartbeats 4000000 in
/-- C1: for every 2-operand instruction whose source and destination operands
are both registers (indices 0..7, parsed with ERA `ABSOLUTE`), the encoder
emits exactly 2 words — the main word followed by one packed word — with no
fix-up requests; the packed word holds the source register index in bits 9..6,
the destination register index in bits 5..2, and ERA bits 00.  Moreover
encoding `mov r3, r4` followed by `stop` into a fresh memory yields IC = 3. -/
theorem C1_two_register_packing (opc : opcode) (h2 : opc.operands_amount = 2)
    (hcode : opc.opcode ≤ 15) (henc : opc.encoding = .ABSOLUTE)
    (rs rd : Nat) (hrs : rs ≤ 7) (hrd : rd ≤ 7) (lns lnd IC : Nat) :
    instruction_encoder opc (some ⟨.reg (rs : Int), .ABSOLUTE, lns⟩)
        (some ⟨.reg (rd : Int), .ABSOLUTE, lnd⟩) IC =
      some ([(opc.opcode <<< 6 ||| 3 <<< 4 ||| 3 <<< 2 ||| 0) &&& 1023,
             64 * rs ||| 4 * rd], []) ∧
    ((64 * rs ||| 4 * rd) >>> OPERAND_DATA_SRC_REG_SHIFT) &&& 15 = rs ∧
    ((64 * rs ||| 4 * rd) >>> OPERAND_DATA_DEST_REG_SHIFT) &&& 15 = rd ∧
    (64 * rs ||| 4 * rd) &&& E_R_A_BITS_MASK = 0 ∧
    (encode_and_store ⟨15, "stop", 0, AM_NONE, AM_NONE, .ABSOLUTE⟩ none none
      (encode_and_store ⟨0, "mov", 2, AM_ALL, AM_1_2_3, .ABSOLUTE⟩
        (some ⟨.reg 3, .ABSOLUTE, 1⟩) (some ⟨.reg 4, .ABSOLUTE, 1⟩)
        ⟨[], [], 0, 0, 0⟩).2).2.IC = 3 := by
  have h15g : (15 < opc.opcode) = False := by
    simp only [eq_iff_iff, iff_false, not_lt]
    omega
  refine ⟨?_, ?_, ?_, ?_, by decide⟩
  case _ =>
    interval_cases rs <;> interval_cases rd <;>
      (simp only [instruction_encoder, h15g, henc,
        encode_operands_loop, operand.type, addr_Mode.toNat, encoding_type.toNat,
        U_MAX_NUM, SRC_ADDR_MODE_BITS, DEST_ADDR_MODE_BITS, OPCODE_BITS_SHIFT, h2,
        SRC_ADDR_MODE_BITS_SHIFT, DEST_ADDR_MODE_BITS_SHIFT, E_R_A_BITS_SHIFT,
        E_R_A_BITS, E_R_A_BITS_MASK, OPERAND_DATA_BITS_MASK, WORD_BIT_MASK,
        OPERAND_DATA_SRC_REG_SHIFT, OPERAND_DATA_DEST_REG_SHIFT,
        OPERAND_DATA_SRC_REG_BITS, OPERAND_DATA_DEST_REG_BITS, OPCODE_BITS,
        MAX_NUM, MIN_NUM, toUShort]
       norm_num [h15g, hcode]
       all_goals decide)
  all_goals interval_cases rs <;> interval_cases rd <;> decide

/-- Witness for C1 at `mov r3, r4`: the hypotheses hold for the `mov` opcode
and registers 3 and 4, and the theorem applies. -/
theorem C1_witness :
    (⟨0, "mov", 2, AM_ALL, AM_1_2_3, .ABSOLUTE⟩ : opcode).operands_amount = 2 ∧
    instruction_encoder ⟨0, "mov", 2, AM_ALL, AM_1_2_3, .ABSOLUTE⟩
        (some ⟨.reg (3 : Nat), .ABSOLUTE, 1⟩) (some ⟨.reg (4 : Nat), .ABSOLUTE, 1⟩) 0 =
      some ([((0 : Nat) <<< 6 ||| 3 <<< 4 ||| 3 <<< 2 ||| 0) &&& 1023, 64 * 3 ||| 4 * 4], []) :=
  ⟨rfl, (C1_two_register_packing ⟨0, "mov", 2, AM_ALL, AM_1_2_3, .ABSOLUTE⟩ rfl
    (by decide) rfl 3 4 (by decide) (by decide) 1 1 0).1⟩


theorem update_request_list_addresses_eq_map (reqs : List address_update_request) :
    update_request_list_addresses reqs =
      reqs.map (fun r => { r with address := r.address + MEMORY_ADDRESS_OFFSET }) := by
  induction reqs with
  | nil => rfl
  | cons r rest ih => simp [update_request_list_addresses, ih]

theorem set_inst_value_found (mem : List (Nat × Nat)) (a b w : Nat) :
    inst_addr_found (set_inst_value mem b w) a = inst_addr_found mem a := by
  induction mem with
  | nil => rfl
  | cons c rest ih =>
    by_cases hc : c.1 = b
    · simp [set_inst_value, inst_addr_found, hc]
    · simp [set_inst_value, inst_addr_found, hc, ih]

theorem find_set_eq (mem : List (Nat × Nat)) (a w : Nat)
    (hfound : inst_addr_found mem a = true) :
    find_inst_value (set_inst_value mem a w) a = some w := by
  induction mem with
  | nil => simp [inst_addr_found] at hfound
  | cons c rest ih =>
    by_cases hc : c.1 = a
    · simp [set_inst_value, find_inst_value, hc]
    · simp only [inst_addr_found, if_neg hc] at hfound
      simp [set_inst_value, find_inst_value, hc, ih hfound]

theorem find_set_ne (mem : List (Nat × Nat)) (a b w : Nat) (hne : a ≠ b) :
    find_inst_value (set_inst_value mem b w) a = find_inst_value mem a := by
  have hba : ¬ (b = a) := fun h => hne h.symm
  induction mem with
  | nil => rfl
  | cons c rest ih =>
    by_cases hc : c.1 = b
    · simp [set_inst_value, find_inst_value, hc, hba]
    · by_cases hca : c.1 = a
      · simp [set_inst_value, find_inst_value, hc, hca, hne]
      · simp [set_inst_value, find_inst_value, hc, hca, ih]

theorem get_label_address_of_get (nm : String) (labels : List label) (lab : label)
    (h : get_label nm labels = some lab) :
    get_label_address nm labels = lab.address := by
  simp [get_label_address, h]

theorem process_requests_loop_find_preserve (labels : List label) :
    ∀ (reqs : List address_update_request) (st : SecondPassState) (b : Bool)
      (st' : SecondPassState) (a : Nat),
      process_requests_loop labels reqs st = (b, st') →
      (∀ r ∈ reqs, r.address ≠ a) →
      find_inst_value st'.instruction_memory a = find_inst_value st.instruction_memory a := by
  intro reqs
  induction reqs with
  | nil =>
    intro st b st' a h _
    simp only [process_requests_loop] at h
    cases h
    rfl
  | cons r rest ih =>
    intro st b st' a h hne
    simp only [process_requests_loop] at h
    split at h
    · cases h; rfl
    next nm hnm =>
      split at h
      · split at h
        · split at h
          · cases h; rfl
          next lab hlab =>
            split at h
            · cases h
              split
              · rfl
              · rfl
            next w hw =>
              have hmem := ih _ _ _ _ h (fun r' hr' => hne r' (List.mem_cons_of_mem _ hr'))
              rw [hmem]
              have hra : r.address ≠ a := hne r (List.mem_cons_self _ _)
              split
              · simp [find_set_ne _ _ _ _ (fun hh => hra hh.symm)]
              · simp [find_set_ne _ _ _ _ (fun hh => hra hh.symm)]
        · cases h; rfl
      · cases h; rfl

theorem process_requests_loop_externals (labels : List label) :
    ∀ (reqs : List address_update_request) (st st' : SecondPassState),
      process_requests_loop labels reqs st = (true, st') →
      st'.external_labels = st.external_labels ++ spec_external_records_at labels reqs := by
  intro reqs
  induction reqs with
  | nil =>
    intro st st' h
    simp only [process_requests_loop] at h
    cases h
    simp [spec_external_records_at]
  | cons r rest ih =>
    intro st st' h
    simp only [process_requests_loop] at h
    split at h
    · simp at h
    next nm hnm =>
      split at h
      case isFalse => simp at h
      case isTrue hfound =>
        split at h
        case isFalse => simp at h
        case isTrue hdef =>
          split at h
          · simp at h
          next lab hlab =>
            split at h
            · simp at h
            next w hw =>
              have hrec := ih _ _ h
              by_cases hext : lab.definition = def_type.EXTERN
              · simp only [hext, if_true, reduceIte] at hrec
                simp only [hrec]
                simp [spec_external_records_at, hnm, hlab, hext, add_external_usage]
              · simp only [hext, if_false, reduceIte] at hrec
                simp only [hrec]
                simp [spec_external_records_at, hnm, hlab, hext]

theorem process_loop_patch (labels : List label) (nm : String) (lab : label) :
    ∀ (pre : List address_update_request) (req : address_update_request)
      (post : List address_update_request) (st st' : SecondPassState),
      process_requests_loop labels (pre ++ req :: post) st = (true, st') →
      request_label_name req.operand = some nm →
      get_label nm labels = some lab →
      (∀ r ∈ post, r.address ≠ req.address) →
      ∃ w, encode_label_address lab.address
            (if lab.definition = def_type.EXTERN then encoding_type.EXTERNAL
             else encoding_type.RELOCATABLE) = some w ∧
           find_inst_value st'.instruction_memory req.address = some w := by
  intro pre
  induction pre with
  | nil =>
    intro req post st st' h hnm hlab huniq
    simp only [List.nil_append] at h
    simp only [process_requests_loop, hnm] at h
    split at h
    case isFalse => simp at h
    case isTrue hfound =>
      split at h
      case isFalse hdef =>
        exact absurd (by simp [is_label_defined, hlab]) hdef
      case isTrue hdef =>
        split at h
        · simp at h
        next labw hlabw =>
          have hlw : labw = lab := by
            rw [hlab] at hlabw
            exact (Option.some.inj hlabw).symm
          rw [hlw, get_label_address_of_get nm labels lab hlab] at h
          split at h
          · simp at h
          next w hw =>
            refine ⟨w, hw, ?_⟩
            have hpres := process_requests_loop_find_preserve labels post _ _ _ req.address h
              (fun r hr => huniq r hr)
            rw [hpres]
            have hfound2 : inst_addr_found
                (if lab.definition = def_type.EXTERN then
                  { st with external_labels :=
                      add_external_usage nm req.address st.external_labels }
                 else st).instruction_memory req.address = true := by
              by_cases hext : lab.definition = def_type.EXTERN <;> simp [hext, hfound]
            exact find_set_eq _ _ _ hfound2
  | cons p pre' ih =>
    intro req post st st' h hnm hlab huniq
    simp only [List.cons_append] at h
    simp only [process_requests_loop] at h
    split at h
    · simp at h
    next nmp hnmp =>
      split at h
      case isFalse => simp at h
      case isTrue hfoundp =>
        split at h
        case isFalse => simp at h
        case isTrue hdefp =>
          split at h
          · simp at h
          next labp hlabp =>
            split at h
            · simp at h
            next wp hwp =>
              exact ih req post _ st' h hnm hlab huniq

theorem encode_label_address_isSome (addr : Nat) (enc : encoding_type) (haddr : addr ≤ 255) :
    ∃ w, encode_label_address addr enc = some w := by
  have h1 : ¬ (U_MAX_NUM OPERAND_DATA_BITS < addr) := by
    simp only [U_MAX_NUM, OPERAND_DATA_BITS]
    norm_num
    omega
  have h2 : ¬ (U_MAX_NUM E_R_A_BITS < enc.toNat) := by
    have := encoding_type_toNat_le enc
    simp only [U_MAX_NUM, E_R_A_BITS]
    norm_num
    omega
  simp only [encode_label_address, if_neg h1, if_neg h2]
  exact ⟨_, rfl⟩

theorem process_loop_undefined (labels : List label) :
    ∀ (pre : List address_update_request) (bad : address_update_request)
      (post : List address_update_request) (st : SecondPassState) (nmB : String),
      (∀ r ∈ pre, ∃ nmr labr, request_label_name r.operand = some nmr ∧
          get_label nmr labels = some labr ∧ labr.address ≤ 255 ∧
          inst_addr_found st.instruction_memory r.address = true) →
      request_label_name bad.operand = some nmB →
      get_label nmB labels = none →
      inst_addr_found st.instruction_memory bad.address = true →
      (process_requests_loop labels (pre ++ bad :: post) st).1 = false ∧
      (process_requests_loop labels (pre ++ bad :: post) st).2.err_code = some 146 ∧
      (process_requests_loop labels (pre ++ bad :: post) st).2.second_pass_error_line =
        bad.operand.file_line ∧
      ∀ a, (∀ r ∈ pre, r.address ≠ a) →
        find_inst_value (process_requests_loop labels (pre ++ bad :: post) st).2.instruction_memory a =
        find_inst_value st.instruction_memory a := by
  intro pre
  induction pre with
  | nil =>
    intro bad post st nmB _ hnm hund hfound
    have hdef : is_label_defined nmB labels = false := by
      simp [is_label_defined, hund]
    simp [List.nil_append, process_requests_loop, hnm, hfound, hdef]
  | cons p pre2 ih =>
    intro bad post st nmB hpre hnm hund hfound
    obtain ⟨nmp, labp, hnmp, hlabp, haddrp, hfoundp⟩ := hpre p (List.mem_cons_self _ _)
    obtain ⟨w, hw⟩ := encode_label_address_isSome labp.address
      (if labp.definition = def_type.EXTERN then encoding_type.EXTERNAL
       else encoding_type.RELOCATABLE) haddrp
    have hdefp : is_label_defined nmp labels = true := by simp [is_label_defined, hlabp]
    simp only [List.cons_append, process_requests_loop, hnmp, hfoundp, if_true, hdefp, hlabp,
      get_label_address_of_get nmp labels labp hlabp, hw]
    generalize hX : (if labp.definition = def_type.EXTERN then
        { st with external_labels := add_external_usage nmp p.address st.external_labels }
      else st) = X
    have hmem1 : X.instruction_memory = st.instruction_memory := by
      rw [← hX]
      by_cases hext : labp.definition = def_type.EXTERN <;> simp [hext]
    have htrans : ∀ r, inst_addr_found st.instruction_memory r = true →
        inst_addr_found (set_inst_value X.instruction_memory p.address w) r = true := by
      intro r hr
      rw [set_inst_value_found, hmem1]
      exact hr
    have hpre2 : ∀ r ∈ pre2, ∃ nmr labr, request_label_name r.operand = some nmr ∧
        get_label nmr labels = some labr ∧ labr.address ≤ 255 ∧
        inst_addr_found (set_inst_value X.instruction_memory p.address w) r.address = true := by
      intro r hr
      obtain ⟨nmr, labr, h1, h2, h3, h4⟩ := hpre r (List.mem_cons_of_mem _ hr)
      exact ⟨nmr, labr, h1, h2, h3, htrans _ h4⟩
    obtain ⟨ih1, ih2, ih3, ih4⟩ := ih bad post
      ⟨set_inst_value X.instruction_memory p.address w, X.external_labels, X.err_code,
        X.second_pass_error_line⟩ nmB hpre2 hnm hund (htrans _ hfound)
    refine ⟨ih1, ih2, ih3, ?_⟩
    intro a ha
    have ih4a := ih4 a (fun r hr => ha r (List.mem_cons_of_mem _ hr))
    simp only [List.append_eq]
    rw [ih4a]
    simp only []
    rw [find_set_ne _ _ _ _ (fun hh => ha p (List.mem_cons_self _ _) hh.symm), hmem1]

theorem spec_external_records_at_map (labels : List label) (reqs : List address_update_request) :
    spec_external_records_at labels
      (reqs.map (fun r => { r with address := r.address + MEMORY_ADDRESS_OFFSET })) =
    spec_external_records labels reqs := by
  induction reqs with
  | nil => rfl
  | cons r rest ih =>
    simp only [List.map_cons, spec_external_records_at, spec_external_records,
      List.filterMap_cons] at ih ⊢
    rcases hn : request_label_name r.operand with _ | nm
    · simpa [hn] using ih
    · rcases hl : get_label nm labels with _ | lab
      · simpa [hn, hl] using ih
      · by_cases hd : lab.definition = def_type.EXTERN
        · simpa [hn, hl, hd] using ih
        · simpa [hn, hl, hd] using ih

/-- C3: for every fix-up request whose label resolves to a label of definition
External (address 0), after a successful fix-up run the patched code-image word
at the request's relocated address is `1` — data field 0 and ERA bits
`External` — and the externals-use list has gained exactly one record per
external fix-up, in processing order, this request contributing the record
(name, relocated address). -/
theorem C3_external_fixup (labels : List label)
    (pre post : List address_update_request) (req : address_update_request)
    (st st' : SecondPassState) (nm : String) (lab : label)
    (hrun : process_addr_update_requests labels (pre ++ req :: post) st = (true, st'))
    (hnm : request_label_name req.operand = some nm)
    (hlab : get_label nm labels = some lab)
    (hext : lab.definition = def_type.EXTERN)
    (haddr : lab.address = 0)
    (huniq : ∀ r ∈ post, r.address ≠ req.address) :
    find_inst_value st'.instruction_memory (req.address + MEMORY_ADDRESS_OFFSET) = some 1 ∧
    (1 : Nat) >>> OPERAND_DATA_BITS_SHIFT = 0 ∧
    (1 : Nat) &&& E_R_A_BITS_MASK = encoding_type.EXTERNAL.toNat ∧
    st'.external_labels = st.external_labels ++
      spec_external_records labels (pre ++ req :: post) ∧
    spec_external_records labels [req] = [(nm, req.address + MEMORY_ADDRESS_OFFSET)] := by
  unfold process_addr_update_requests at hrun
  rw [update_request_list_addresses_eq_map] at hrun
  have hext_eq := process_requests_loop_externals labels _ _ _ hrun
  rw [spec_external_records_at_map] at hext_eq
  simp only [List.map_append, List.map_cons] at hrun
  obtain ⟨w, hw, hfind⟩ := process_loop_patch labels nm lab _ _ _ _ _ hrun hnm hlab
    (by
      intro r hr
      obtain ⟨r0, h0, rfl⟩ := List.mem_map.1 hr
      simp only [ne_eq]
      intro hcontra
      exact huniq r0 h0 (by omega))
  rw [hext, haddr] at hw
  have hw1 : w = 1 := by
    have hcalc : encode_label_address 0 encoding_type.EXTERNAL = some 1 := by decide
    simp only [if_pos rfl] at hw
    exact (Option.some.inj (hcalc.symm.trans hw)).symm
  subst hw1
  exact ⟨hfind, by decide, by decide, hext_eq, by simp [spec_external_records, hnm, hlab, hext]⟩

/-- C10: if a fix-up request references a label name absent from the symbol
table, fix-up processing fails at that request with the undefined-label error
(code 146, reported at the operand's recorded line), and every code word not
patched by an earlier request — in particular every later deferred operand
word — is left unchanged in the code image. -/
theorem C10_undefined_label (labels : List label)
    (pre post : List address_update_request) (bad : address_update_request)
    (st : SecondPassState) (nmB : String)
    (hpre : ∀ r ∈ pre, ∃ nmr labr, request_label_name r.operand = some nmr ∧
        get_label nmr labels = some labr ∧ labr.address ≤ 255 ∧
        inst_addr_found st.instruction_memory (r.address + MEMORY_ADDRESS_OFFSET) = true)
    (hnm : request_label_name bad.operand = some nmB)
    (hund : get_label nmB labels = none)
    (hfound : inst_addr_found st.instruction_memory (bad.address + MEMORY_ADDRESS_OFFSET) = true) :
    (process_addr_update_requests labels (pre ++ bad :: post) st).1 = false ∧
    (process_addr_update_requests labels (pre ++ bad :: post) st).2.err_code = some 146 ∧
    (process_addr_update_requests labels (pre ++ bad :: post) st).2.second_pass_error_line =
      bad.operand.file_line ∧
    ∀ a, (∀ r ∈ pre, r.address + MEMORY_ADDRESS_OFFSET ≠ a) →
      find_inst_value
        (process_addr_update_requests labels (pre ++ bad :: post) st).2.instruction_memory a =
      find_inst_value st.instruction_memory a := by
  unfold process_addr_update_requests
  rw [update_request_list_addresses_eq_map]
  simp only [List.map_append, List.map_cons]
  obtain ⟨h1, h2, h3, h4⟩ := process_loop_undefined labels
    (pre.map (fun r => { r with address := r.address + MEMORY_ADDRESS_OFFSET }))
    ({ bad with address := bad.address + MEMORY_ADDRESS_OFFSET }) (post.map _) st nmB
    (by
      intro r hr
      obtain ⟨r0, h0, rfl⟩ := List.mem_map.1 hr
      obtain ⟨nmr, labr, a1, a2, a3, a4⟩ := hpre r0 h0
      exact ⟨nmr, labr, a1, a2, a3, a4⟩)
    hnm hund hfound
  refine ⟨h1, h2, h3, ?_⟩
  intro a ha
  exact h4 a (by
    intro r hr
    obtain ⟨r0, h0, rfl⟩ := List.mem_map.1 hr
    exact ha r0 h0)

theorem update_instruction_addresses_eq_map (mem : List (Nat × Nat)) :
    update_instruction_addresses mem = mem.map (fun c => (c.1 + MEMORY_ADDRESS_OFFSET, c.2)) := by
  induction mem with
  | nil => rfl
  | cons c rest ih => simp [update_instruction_addresses, ih]

theorem update_data_addresses_eq_map (IC : Nat) (mem : List (Nat × Int)) :
    update_data_addresses IC mem = mem.map (fun c => (c.1 + (IC + MEMORY_ADDRESS_OFFSET), c.2)) := by
  induction mem with
  | nil => rfl
  | cons c rest ih => simp [update_data_addresses, ih]

theorem update_labels_addresses_eq_map (IC : Nat) (labels : List label) :
    update_labels_addresses IC labels = labels.map (fun l =>
      if l.type = addr_type.DATA then { l with address := l.address + (IC + MEMORY_ADDRESS_OFFSET) }
      else if l.type = addr_type.CODE then { l with address := l.address + MEMORY_ADDRESS_OFFSET }
      else l) := by
  induction labels with
  | nil => rfl
  | cons l rest ih => simp [update_labels_addresses, ih]

/-- C2: after the second pass's relocation steps, every code-image address has
grown by exactly the memory offset, every data-image address by exactly the
final IC plus the memory offset, Code labels by the offset, Data labels by the
final IC plus the offset, and every External label (segment `UNKNOWN_ADDR_TYPE`,
address 0 — the only way the first pass creates them) still has address 0. -/
theorem C2_relocation (st : SecondPassImage)
    (hextinv : ∀ l ∈ st.labels, l.definition = def_type.EXTERN →
      l.type = addr_type.UNKNOWN_ADDR_TYPE ∧ l.address = 0) :
    (second_pass_relocate st).instruction_memory =
      st.instruction_memory.map (fun c => (c.1 + MEMORY_ADDRESS_OFFSET, c.2)) ∧
    (second_pass_relocate st).data_memory =
      st.data_memory.map (fun c => (c.1 + (st.IC + MEMORY_ADDRESS_OFFSET), c.2)) ∧
    (second_pass_relocate st).labels = st.labels.map (fun l =>
      if l.type = addr_type.DATA then
        { l with address := l.address + (st.IC + MEMORY_ADDRESS_OFFSET) }
      else if l.type = addr_type.CODE then { l with address := l.address + MEMORY_ADDRESS_OFFSET }
      else l) ∧
    ∀ l ∈ (second_pass_relocate st).labels, l.definition = def_type.EXTERN → l.address = 0 := by
  refine ⟨update_instruction_addresses_eq_map _, update_data_addresses_eq_map _ _,
    update_labels_addresses_eq_map _ _, ?_⟩
  intro l hl hdef
  simp only [second_pass_relocate, update_labels_addresses_eq_map, List.mem_map] at hl
  obtain ⟨l0, hl0, rfl⟩ := hl
  have hinv := hextinv l0 hl0
  by_cases ht : l0.type = addr_type.DATA
  · simp only [ht, if_true, reduceIte] at hdef ⊢
    obtain ⟨htype, _⟩ := hinv hdef
    rw [ht] at htype
    cases htype
  · by_cases hc : l0.type = addr_type.CODE
    · simp only [ht, hc, if_false, if_true, reduceIte] at hdef ⊢
      obtain ⟨htype, _⟩ := hinv hdef
      rw [hc] at htype
      cases htype
    · simp only [ht, hc, if_false, reduceIte] at hdef ⊢
      exact (hinv hdef).2

/-- C4: appending a word to the code image or to the data image fails exactly
when `memory_usage` has reached `MEMORY_AVAILABLE_SPACE`; on failure the whole
state is unchanged, and on success the appended cell carries the current
counter value as its address while the counter (IC or DC) and `memory_usage`
each grow by one, preserving `memory_usage = IC + DC`. -/
theorem C4_memory_capacity (st : AsmMemory) (v : Nat) (d : Int)
    (hinv : st.memory_usage = st.IC + st.DC)
    (hcap : st.memory_usage ≤ MEMORY_AVAILABLE_SPACE) :
    ((add_instruction_to_memory v st).1 = false ↔
      st.memory_usage = MEMORY_AVAILABLE_SPACE) ∧
    ((add_instruction_to_memory v st).1 = false → (add_instruction_to_memory v st).2 = st) ∧
    ((add_instruction_to_memory v st).1 = true →
      (add_instruction_to_memory v st).2.instruction_memory =
        st.instruction_memory ++ [(st.IC, v)] ∧
      (add_instruction_to_memory v st).2.data_memory = st.data_memory ∧
      (add_instruction_to_memory v st).2.IC = st.IC + 1 ∧
      (add_instruction_to_memory v st).2.DC = st.DC ∧
      (add_instruction_to_memory v st).2.memory_usage = st.memory_usage + 1 ∧
      (add_instruction_to_memory v st).2.memory_usage =
        (add_instruction_to_memory v st).2.IC + (add_instruction_to_memory v st).2.DC) ∧
    ((add_data_to_memory d st).1 = false ↔ st.memory_usage = MEMORY_AVAILABLE_SPACE) ∧
    ((add_data_to_memory d st).1 = false → (add_data_to_memory d st).2 = st) ∧
    ((add_data_to_memory d st).1 = true →
      (add_data_to_memory d st).2.data_memory = st.data_memory ++ [(st.DC, d)] ∧
      (add_data_to_memory d st).2.instruction_memory = st.instruction_memory ∧
      (add_data_to_memory d st).2.DC = st.DC + 1 ∧
      (add_data_to_memory d st).2.IC = st.IC ∧
      (add_data_to_memory d st).2.memory_usage = st.memory_usage + 1 ∧
      (add_data_to_memory d st).2.memory_usage =
        (add_data_to_memory d st).2.IC + (add_data_to_memory d st).2.DC) := by
  by_cases h : st.memory_usage = MEMORY_AVAILABLE_SPACE
  · have hge : MEMORY_AVAILABLE_SPACE ≤ st.memory_usage := le_of_eq h.symm
    simp [add_instruction_to_memory, add_data_to_memory, h, if_pos hge, hge]
  · have hlt : ¬ (MEMORY_AVAILABLE_SPACE ≤ st.memory_usage) := by omega
    simp [add_instruction_to_memory, add_data_to_memory, h, hlt]
    omega

theorem string_body_loop_chars :
    ∀ (input buff : List Char) (body rest : List Char),
      string_body_loop input buff = some (body, rest) →
      (∀ c ∈ buff, (c_isalnum c || c_isspace c) = true) →
      ∀ c ∈ body, (c_isalnum c || c_isspace c) = true := by
  intro input
  induction input with
  | nil =>
    intro buff body rest h _
    simp [string_body_loop] at h
  | cons c0 rest0 ih =>
    intro buff body rest h hbuff
    simp only [string_body_loop] at h
    split at h
    · obtain ⟨h1, _⟩ := Prod.mk.injEq _ _ _ _ ▸ Option.some.inj h
      exact h1 ▸ hbuff
    · split at h
      next hok =>
        refine ih _ _ _ h ?_
        intro c hc
        rcases List.mem_append.1 hc with hc1 | hc2
        · exact hbuff c hc1
        · simp at hc2
          subst hc2
          exact hok
      next => simp at h

theorem extract_directive_string_chars (line : List Char) (body : List Char)
    (h : extract_directive_string line = some body) :
    ∀ c ∈ body, (c_isalnum c || c_isspace c) = true := by
  unfold extract_directive_string at h
  split at h
  · simp at h
  next c rest =>
    split at h
    · simp at h
    · split at h
      · simp at h
      next bd rest2 hloop =>
        split at h
        · have hb : bd = body := by
            simpa using Option.some.inj h
          subst hb
          exact string_body_loop_chars _ _ _ _ hloop (by intro c hc; simp at hc)
        · simp at h

theorem char_ok_toNat_le (c : Char) (h : (c_isalnum c || c_isspace c) = true) :
    c.toNat ≤ 122 := by
  simp only [c_isalnum, c_isalpha, c_isdigit, c_isspace, Bool.or_eq_true, Bool.and_eq_true,
    decide_eq_true_eq] at h
  omega

theorem insert_data_values_ok :
    ∀ (vals : List Int) (st : AsmMemory),
      (∀ v ∈ vals, MIN_NUM WORD_BIT_SIZE ≤ v ∧ v ≤ MAX_NUM WORD_BIT_SIZE) →
      st.memory_usage + vals.length ≤ MEMORY_AVAILABLE_SPACE →
      insert_data_values vals st = (true, { st with
        data_memory := st.data_memory ++ List.enumFrom st.DC vals,
        DC := st.DC + vals.length,
        memory_usage := st.memory_usage + vals.length }) := by
  intro vals
  induction vals with
  | nil =>
    intro st _ _
    simp [insert_data_values]
  | cons v rest ih =>
    intro st hrange hcap
    obtain ⟨hlo, hhi⟩ := hrange v (List.mem_cons_self _ _)
    have hokr : ¬ (v > MAX_NUM WORD_BIT_SIZE ∨ v < MIN_NUM WORD_BIT_SIZE) := by
      push_neg
      exact ⟨hhi, hlo⟩
    have hroom : ¬ (MEMORY_AVAILABLE_SPACE ≤ st.memory_usage) := by
      simp only [List.length_cons] at hcap
      omega
    simp only [insert_data_values, if_neg hokr, add_data_to_memory, if_neg hroom]
    rw [ih _ (fun x hx => hrange x (List.mem_cons_of_mem _ hx))
      (by
        show st.memory_usage + 1 + rest.length ≤ MEMORY_AVAILABLE_SPACE
        simp only [List.length_cons] at hcap
        omega)]
    simp [List.enumFrom, List.append_assoc, List.length_cons, Nat.add_assoc, Nat.add_comm,
      Nat.add_left_comm]

/-- C9: for every accepted `.string` directive (quoted body `s` extracted by
the parser) with enough free memory, the data image gains exactly
`s.length + 1` words in order — the character codes of `s` followed by a
terminating 0 word — at consecutive addresses starting at the current DC,
which advances by `s.length + 1`. -/
theorem C9_string_directive (line s : List Char) (st : AsmMemory)
    (hs : extract_directive_string (skip_spaces line) = some s)
    (hcap : st.memory_usage + (s.length + 1) ≤ MEMORY_AVAILABLE_SPACE) :
    handle_string_directive_line line st = (true, { st with
      data_memory := st.data_memory ++
        List.enumFrom st.DC (s.map (fun c : Char => (c.toNat : Int)) ++ [0]),
      DC := st.DC + (s.length + 1),
      memory_usage := st.memory_usage + (s.length + 1) }) ∧
    (s.map (fun c : Char => (c.toNat : Int)) ++ [0]).length = s.length + 1 := by
  have hlen : (s.map (fun c : Char => (c.toNat : Int)) ++ [0]).length = s.length + 1 := by
    simp
  refine ⟨?_, hlen⟩
  have hchars := extract_directive_string_chars _ _ hs
  have hrange : ∀ v ∈ (s.map (fun ch : Char => (ch.toNat : Int)) ++ [0]),
      MIN_NUM WORD_BIT_SIZE ≤ v ∧ v ≤ MAX_NUM WORD_BIT_SIZE := by
    intro v hv
    rcases List.mem_append.1 hv with hv1 | hv2
    · obtain ⟨ch, hc, rfl⟩ := List.mem_map.1 hv1
      have hb := char_ok_toNat_le ch (hchars ch hc)
      constructor
      · simp only [MIN_NUM, WORD_BIT_SIZE]
        norm_num
        omega
      · simp only [MAX_NUM, WORD_BIT_SIZE]
        norm_num
        omega
    · simp at hv2
      subst hv2
      constructor
      · simp [MIN_NUM, WORD_BIT_SIZE]
      · simp [MAX_NUM, WORD_BIT_SIZE]
  simp only [handle_string_directive_line, parse_string_directive, hs]
  rw [if_pos (by omega)]
  rw [insert_data_values_ok _ _ hrange (by rw [hlen]; exact hcap)]
  rw [hlen]

theorem read_macro_content_count :
    ∀ (ls : List String) (a : Nat) (c : List String) (n : Nat)
      (content : List String) (count : Nat),
      (read_macro_content ls a c n).res = some (content, count) →
      count + c.length = content.length + 1 + n := by
  intro ls
  induction ls with
  | nil =>
    intro a c n content count h
    simp [read_macro_content] at h
  | cons l rest ih =>
    intro a c n content count h
    simp only [read_macro_content] at h
    rcases he : is_end_of_macro l with ⟨isEnd, errs1, flag1⟩
    rw [he] at h
    cases isEnd
    · have := ih (a + 1) (c ++ [l]) (n + 1) content count h
      simp only [List.length_append, List.length_cons, List.length_nil] at this ⊢
      omega
    · by_cases hc : c.isEmpty
      · simp [hc] at h
      · simp only [hc, Bool.false_eq_true, if_false, reduceIte] at h
        have h2 := Option.some.inj h
        have hcnt : count = n + 1 := (congrArg Prod.snd h2).symm
        have hcont : content = c := (congrArg Prod.fst h2).symm
        subst hcnt
        subst hcont
        omega

/-- C6 (amended): for every macro definition whose captured body consists of N
lines, the recorded line count is N + 1 — the body lines plus the terminating
`mcroend` line, which `read_macro_content` also counts. -/
theorem C6_macro_line_count (ls : List String) (a : Nat) (content : List String) (count : Nat)
    (hres : (read_macro_content ls a [] 0).res = some (content, count)) :
    count = content.length + 1 := by
  have := read_macro_content_count ls a [] 0 content count hres
  simpa using this

/-- Witness for C3: a single fix-up to external label X at raw code address 1,
relocated to 101; the patched word is 1 and the externals list gains X @ 101. -/
theorem C3_witness :
    find_inst_value [(100, 60), (101, 1)] (1 + MEMORY_ADDRESS_OFFSET) = some 1 ∧
    ([("X", 101)] : List (String × Nat)) = [] ++ spec_external_records
      [⟨"X", 0, addr_type.UNKNOWN_ADDR_TYPE, def_type.EXTERN, false⟩]
      ([] ++ ⟨1, ⟨operand_val.lbl "X", encoding_type.UNKNOWN, 2⟩⟩ :: []) := by
  have h := C3_external_fixup [⟨"X", 0, addr_type.UNKNOWN_ADDR_TYPE, def_type.EXTERN, false⟩]
    [] [] ⟨1, ⟨operand_val.lbl "X", encoding_type.UNKNOWN, 2⟩⟩
    ⟨[(100, 60), (101, 3)], [], none, 0⟩ ⟨[(100, 60), (101, 1)], [("X", 101)], none, 0⟩
    "X" ⟨"X", 0, addr_type.UNKNOWN_ADDR_TYPE, def_type.EXTERN, false⟩
    (by decide) rfl (by decide) rfl rfl (by simp)
  exact ⟨h.1, h.2.2.2.1.symm ▸ rfl⟩

/-- Witness for C10: with an empty symbol table, a fix-up to the undefined
label Y aborts processing with error 146 and the later request's word at
address 102 keeps its first-pass value 3 (data 0, ERA Unknown). -/
theorem C10_witness :
    (process_addr_update_requests [] ([] ++ ⟨1, ⟨operand_val.lbl "Y", encoding_type.UNKNOWN, 7⟩⟩ ::
      [⟨2, ⟨operand_val.lbl "Z", encoding_type.UNKNOWN, 9⟩⟩]) ⟨[(101, 3), (102, 3)], [], none, 0⟩).1
      = false ∧
    find_inst_value (process_addr_update_requests []
      ([] ++ ⟨1, ⟨operand_val.lbl "Y", encoding_type.UNKNOWN, 7⟩⟩ ::
        [⟨2, ⟨operand_val.lbl "Z", encoding_type.UNKNOWN, 9⟩⟩])
      ⟨[(101, 3), (102, 3)], [], none, 0⟩).2.instruction_memory 102 = some 3 := by
  have h := C10_undefined_label [] [] [⟨2, ⟨operand_val.lbl "Z", encoding_type.UNKNOWN, 9⟩⟩]
    ⟨1, ⟨operand_val.lbl "Y", encoding_type.UNKNOWN, 7⟩⟩ ⟨[(101, 3), (102, 3)], [], none, 0⟩ "Y"
    (by simp) rfl rfl (by decide)
  exact ⟨h.1, (h.2.2.2 102 (by simp)).trans (by decide)⟩

/-- Witness for C2: relocating a one-word code image, a one-word data image
and an external label X with IC = 4; the external label keeps address 0. -/
theorem C2_witness :
    (second_pass_relocate ⟨[(0, 60)], [(0, 5)],
      [⟨"X", 0, addr_type.UNKNOWN_ADDR_TYPE, def_type.EXTERN, false⟩], 4⟩).data_memory =
      [(104, 5)] ∧
    (second_pass_relocate ⟨[(0, 60)], [(0, 5)],
      [⟨"X", 0, addr_type.UNKNOWN_ADDR_TYPE, def_type.EXTERN, false⟩], 4⟩).labels =
      [⟨"X", 0, addr_type.UNKNOWN_ADDR_TYPE, def_type.EXTERN, false⟩] := by
  have h := C2_relocation ⟨[(0, 60)], [(0, 5)],
    [⟨"X", 0, addr_type.UNKNOWN_ADDR_TYPE, def_type.EXTERN, false⟩], 4⟩ (by decide)
  exact ⟨h.2.1.trans (by decide), h.2.2.1.trans (by decide)⟩

/-- Witness for C4: on an empty memory (usage 0 = IC + DC ≤ capacity) an
append does not fail. -/
theorem C4_witness :
    ((add_instruction_to_memory 5 ⟨[], [], 0, 0, 0⟩).1 = false ↔
      (⟨[], [], 0, 0, 0⟩ : AsmMemory).memory_usage = MEMORY_AVAILABLE_SPACE) ∧
    ((add_data_to_memory 7 ⟨[], [], 0, 0, 0⟩).1 = false ↔
      (⟨[], [], 0, 0, 0⟩ : AsmMemory).memory_usage = MEMORY_AVAILABLE_SPACE) :=
  ⟨(C4_memory_capacity ⟨[], [], 0, 0, 0⟩ 5 7 rfl (by decide)).1,
   (C4_memory_capacity ⟨[], [], 0, 0, 0⟩ 5 7 rfl (by decide)).2.2.2.1⟩

/-- Witness for C9: the directive payload `"HELLO"` adds the six words
H, E, L, L, O, 0 at data addresses 0..5. -/
theorem C9_witness :
    handle_string_directive_line " \"HELLO\"".toList ⟨[], [], 0, 0, 0⟩ =
      (true, ⟨[], [(0, 72), (1, 69), (2, 76), (3, 76), (4, 79), (5, 0)], 0, 6, 6⟩) := by
  have h := C9_string_directive " \"HELLO\"".toList "HELLO".toList ⟨[], [], 0, 0, 0⟩
    (by decide) (by decide)
  exact h.1.trans (by decide)

/-- C6 (counterexample to the claim as stated): for the two-line macro GREET
the macro table records line count 3, not 2. -/
theorem C6_counterexample :
    ((execute_preprocessor ["mcro GREET", "mov r1, r2", "add r1, r2", "mcroend",
        "GREET", "GREET"]).2.macros.map
      (fun m => (m.name, m.content.length, m.lines))) = [("GREET", 2, 3)] ∧ (3 : Nat) ≠ 2 := by
  decide

/-- Witness for C6: reading the GREET body captures 2 body lines and records
count 3 = 2 + 1. -/
theorem C6_witness :
    (read_macro_content ["mov r1, r2", "add r1, r2", "mcroend"] 1 [] 0).res =
      some (["mov r1, r2", "add r1, r2"], 3) ∧ (3 : Nat) = 2 + 1 := by
  refine ⟨by decide, ?_⟩
  exact C6_macro_line_count ["mov r1, r2", "add r1, r2", "mcroend"] 1
    ["mov r1, r2", "add r1, r2"] 3 (by decide)

/-- C5: a source whose macro definition uses the invalid name `1bad` surfaces
the invalid-macro-name error (code 148) — and `1bad` is indeed rejected by
`is_name_valid` — yet the preprocessor's error flag stays clear, the expanded
file IS emitted, and `execute_preprocessor` reports success, so the pipeline
proceeds to the first pass.  This exhibits the code path on which the claim
(no .am file, pipeline halts) fails. -/
theorem C5_error_still_emits :
    (execute_preprocessor ["mcro 1bad", "mov r0, r1", "mcroend", "stop"]).1 = some ["stop"] ∧
    (execute_preprocessor ["mcro 1bad", "mov r0, r1", "mcroend", "stop"]).2.errs = [148] ∧
    (execute_preprocessor ["mcro 1bad", "mov r0, r1", "mcroend", "stop"]).2.preproc_error
      = false ∧
    is_name_valid "1bad" = false := by
  decide

/-- C8: the dimension validation of `.mat` only rejects a zero dimension.  For
`.mat [-1][2] 5` the `row == 0 || col == 0` check passes and control reaches
the padding branch with a negative matrix size, whose wrapped unsigned
comparisons send a 2^64 - 8 byte request to `handle_realloc` instead of
reporting the matrix-dimension error.  Zero dimensions, surplus values and the
zero-padding of missing values behave as the claim states. -/
theorem C8_mat_dims_eval :
    parse_mat_directive (-1) 2 [5] = mat_parse_outcome.realloc_overflow 18446744073709551608 ∧
    parse_mat_directive (-1) 2 [5] ≠ mat_parse_outcome.rejected_dims ∧
    parse_mat_directive 0 2 [5] = mat_parse_outcome.rejected_dims ∧
    parse_mat_directive 2 0 [5] = mat_parse_outcome.rejected_dims ∧
    parse_mat_directive 2 2 [5, 6, 7, 8, 9] = mat_parse_outcome.rejected_surplus ∧
    parse_mat_directive 2 2 [5, 6, 7] = mat_parse_outcome.padded [5, 6, 7, 0] ∧
    parse_mat_directive 2 2 [5, 6, 7, 8] = mat_parse_outcome.padded [5, 6, 7, 8] := by
  decide


/-- Every addressing mode fits the 2-bit mode fields. -/
theorem addr_Mode_toNat_le (m : addr_Mode) : m.toNat ≤ 3 := by
  cases m <;> simp [addr_Mode.toNat]

/-- The operand loop only appends to the word buffer (or merges its last two
entries, which both exist whenever `i ≥ 1`), so the head of the buffer — the
main word — survives to the output. -/
theorem encode_operands_loop_head (amount : Nat) (srcO destO : Option operand) :
    ∀ remaining i mw matw b bt ic reqs out,
      encode_operands_loop amount srcO destO remaining i mw matw (b :: bt) ic reqs = some out →
      (1 ≤ i → 1 ≤ bt.length) →
      ∃ bt2, out.1 = b :: bt2 := by
  intro remaining
  induction remaining with
  | zero =>
    intro i mw matw b bt ic reqs out h _
    simp only [encode_operands_loop] at h
    have h2 := Option.some.inj h
    subst h2
    exact ⟨bt, rfl⟩
  | succ n ih =>
    intro i mw matw b bt ic reqs out h hble
    simp only [encode_operands_loop] at h
    split at h
    · exact absurd h (by simp)
    next op heq =>
      split at h
      · exact absurd h (by simp)
      next mw2 matw2 reqs1 hstep =>
        split at h
        · exact absurd h (by simp)
        next hera =>
          split at h
          all_goals split at h
          all_goals rename_i hcond
          all_goals first
            | (have hi : i = 1 := by
                 simp only [Bool.and_eq_true, beq_iff_eq] at hcond
                 exact hcond.1.1
               have hbt : 1 ≤ bt.length := hble (by omega)
               cases bt with
               | nil => simp at hbt
               | cons b2 bts =>
                 simp only [List.dropLast_cons₂, List.cons_append] at h
                 exact ih _ _ _ b _ _ _ _ h (by intro _; simp))
            | (simp only [List.cons_append] at h
               exact ih _ _ _ b _ _ _ _ h (by intro _; simp))

/-- C7: for every encoded instruction the main word is emitted first, carrying
the opcode in bits 9..6, the source addressing-mode tag in bits 5..4 (zero if
no source operand), the destination addressing-mode tag in bits 3..2 (zero if
no destination operand) and the opcode's ERA (Absolute, bits 00) in bits 1..0;
and the source line `stop` produces IC = 1, DC = 0 and the single word 960,
whose only non-zero field is opcode 15 in bits 9..6. -/
theorem C7_main_word_layout (opc : opcode) (hcode : opc.opcode ≤ 15)
    (henc : opc.encoding = .ABSOLUTE)
    (src_operand dest_operand : Option operand) (IC : Nat)
    (words : List Nat) (reqs : List address_update_request)
    (hrun : instruction_encoder opc src_operand dest_operand IC = some (words, reqs)) :
    words.head? = some
      ((opc.opcode <<< OPCODE_BITS_SHIFT |||
        (match src_operand with | some s => s.type.toNat | none => 0) <<< SRC_ADDR_MODE_BITS_SHIFT |||
        (match dest_operand with | some d => d.type.toNat | none => 0) <<< DEST_ADDR_MODE_BITS_SHIFT |||
        opc.encoding.toNat <<< E_R_A_BITS_SHIFT) &&& WORD_BIT_MASK) ∧
    encode_and_store ⟨15, "stop", 0, AM_NONE, AM_NONE, .ABSOLUTE⟩ none none ⟨[], [], 0, 0, 0⟩ =
      (true, ⟨[(0, 960)], [], 1, 0, 1⟩) ∧
    (960 >>> OPCODE_BITS_SHIFT) &&& 15 = 15 ∧
    (960 >>> SRC_ADDR_MODE_BITS_SHIFT) &&& 3 = 0 ∧
    (960 >>> DEST_ADDR_MODE_BITS_SHIFT) &&& 3 = 0 ∧
    960 &&& E_R_A_BITS_MASK = 0 := by
  refine ⟨?_, by decide, by decide, by decide, by decide, by decide⟩
  have h15 : ¬ (U_MAX_NUM OPCODE_BITS < opc.opcode) := by
    simp only [U_MAX_NUM, OPCODE_BITS]
    norm_num
    omega
  rcases src_operand with _ | s <;> rcases dest_operand with _ | d <;>
    simp only [instruction_encoder, if_neg h15, henc, encoding_type.toNat] at hrun
  case' none.some =>
    have hd : decide (d.type.toNat ≤ U_MAX_NUM DEST_ADDR_MODE_BITS) = true :=
      decide_eq_true (by simpa [U_MAX_NUM, DEST_ADDR_MODE_BITS] using addr_Mode_toNat_le d.type)
    simp only [hd] at hrun
  case' some.none =>
    have hs : decide (s.type.toNat ≤ U_MAX_NUM SRC_ADDR_MODE_BITS) = true :=
      decide_eq_true (by simpa [U_MAX_NUM, SRC_ADDR_MODE_BITS] using addr_Mode_toNat_le s.type)
    simp only [hs] at hrun
  case' some.some =>
    have hs : decide (s.type.toNat ≤ U_MAX_NUM SRC_ADDR_MODE_BITS) = true :=
      decide_eq_true (by simpa [U_MAX_NUM, SRC_ADDR_MODE_BITS] using addr_Mode_toNat_le s.type)
    have hd : decide (d.type.toNat ≤ U_MAX_NUM DEST_ADDR_MODE_BITS) = true :=
      decide_eq_true (by simpa [U_MAX_NUM, DEST_ADDR_MODE_BITS] using addr_Mode_toNat_le d.type)
    simp only [hs, hd] at hrun
  all_goals simp only [eq_self_iff_true, not_true, if_false, U_MAX_NUM, E_R_A_BITS] at hrun
  all_goals norm_num at hrun
  all_goals split at hrun
  all_goals try exact Option.noConfusion hrun
  all_goals rename_i buff2 ic2 reqs2 hloop
  all_goals have hw := congrArg Prod.fst (Option.some.inj hrun)
  all_goals simp only at hw
  all_goals obtain ⟨bt2, hbt2⟩ :=
    encode_operands_loop_head _ _ _ _ _ _ _ _ _ _ _ _ hloop (fun hh => absurd hh (by decide))
  all_goals simp only at hbt2
  all_goals subst hw
  all_goals simp [hbt2, henc, encoding_type.toNat, Nat.zero_shiftLeft, Nat.or_zero]

/-- Witness for C7: the `stop` opcode encodes to the single word 960 whose
head is the main word with opcode 15, no mode bits and ERA 00. -/
theorem C7_witness :
    instruction_encoder ⟨15, "stop", 0, AM_NONE, AM_NONE, .ABSOLUTE⟩ none none 0 =
      some ([960], []) ∧
    ([960] : List Nat).head? = some ((15 <<< OPCODE_BITS_SHIFT |||
      (0 : Nat) <<< SRC_ADDR_MODE_BITS_SHIFT ||| (0 : Nat) <<< DEST_ADDR_MODE_BITS_SHIFT |||
      encoding_type.ABSOLUTE.toNat <<< E_R_A_BITS_SHIFT) &&& WORD_BIT_MASK) := by
  refine ⟨by decide, ?_⟩
  have h := C7_main_word_layout ⟨15, "stop", 0, AM_NONE, AM_NONE, .ABSOLUTE⟩ (by decide) rfl
    none none 0 [960] [] (by decide)
  simpa using h.1

end Assembler
